import Mathlib

/-!
Shallow embedding of the release resolution and caching engine of
`pysb.py` (python standalone build management tool).

The embedding covers:
* `fetch` — the content cache (`fetch` in the source, lines 289-299),
  modelled as a pure state transformer over the cache entry for one URL;
* `primary_match` / `variant_match` — the two regular-expression stages of
  the asset-name parser inside `get_versions` (lines 328-332), modelled as
  deterministic character-list parsers implementing the (deterministic)
  backtracking semantics of the two patterns;
* `get_versions` — manifest parsing, filter-set normalization, filtering
  and sorting (lines 302-374);
* `python_install` — the decision logic of the `install` subcommand
  (lines 419-446), with its filesystem effects reified in the outcome.
-/

namespace Pysb

/-! ## Content cache (`fetch`, source lines 289-299)

The cache state for one URL is `Option (List Nat × Int)`: the cached byte
content together with its modification time, or `none` when no cache file
exists.  A network download either succeeds with a full body or fails
partway after producing a proper prefix of the body.  The source opens the
cache path with mode `"wb"` (truncate) and streams the response into it
with `shutil.copyfileobj`, so a partial failure leaves the prefix at the
cache path. -/

/-- Outcome of the network GET performed by `urllib.request.urlopen` plus
`shutil.copyfileobj`: either the full body arrives, or the connection
fails partway after `part` bytes were already copied to the open file. -/
inductive Download where
  | ok (body : List Nat)
  | failPart (part : List Nat)
deriving DecidableEq

/-- Result of one `fetch` call on the cache entry of a single URL:
the cache entry afterwards, whether the network was touched, and either
the content of the returned stream or a `FetchFailed` error (the
propagated `urllib`/`OSError` exception). -/
structure FetchOutcome where
  cache : Option (List Nat × Int)
  networkUsed : Bool
  result : Except Unit (List Nat)

/-- `fetch(url, cache=...)`, source lines 289-299, for one URL.
`cached` is the state of that URL's cache file, `now` the current time,
`maxAge` the `cache` parameter.  The freshness test is the source's
`cache_path.exists() and cache_path.stat().st_mtime > (time.time() - cache)`;
when stale, the file is opened with `"wb"` (truncated) and the response is
copied into it in place. -/
def fetch (cached : Option (List Nat × Int)) (now maxAge : Int)
    (net : Download) : FetchOutcome :=
  match cached with
  | some (body, mtime) =>
    if mtime > now - maxAge then
      { cache := some (body, mtime), networkUsed := false, result := Except.ok body }
    else
      match net with
      | Download.ok b => { cache := some (b, now), networkUsed := true, result := Except.ok b }
      | Download.failPart p => { cache := some (p, now), networkUsed := true, result := Except.error () }
  | none =>
    match net with
    | Download.ok b => { cache := some (b, now), networkUsed := true, result := Except.ok b }
    | Download.failPart p => { cache := some (p, now), networkUsed := true, result := Except.error () }

/-! ## Asset-name parser: primary pattern (source lines 328-331)

The primary pattern is
`^cpython-(?P<version>\d+\.\d+\.\d+)\+(?P<date>\d+)-(?P<arch>[^-]+)-(?P<vendor>[^-]+)-(?P<os>[^-]+)-(?P<tail>.*)$`.
Every quantified group is either a digit run followed by a literal
non-digit, or a non-hyphen run followed by a literal hyphen, so greedy
matching is deterministic and backtracking can never produce another
match: each group is the maximal run at its position. -/

/-- Capture groups of the primary pattern. -/
structure PrimMatch where
  version : List Char
  date : List Char
  arch : List Char
  vendor : List Char
  os : List Char
  tail : List Char
deriving DecidableEq

/-- Match `\d+` followed by the literal separator `sep`; return the digit
run and the rest after the separator. -/
def expectDigitsThen (sep : Char) (cs : List Char) : Option (List Char × List Char) :=
  let d := cs.takeWhile Char.isDigit
  let r := cs.dropWhile Char.isDigit
  if d.isEmpty then none
  else
    match r with
    | c :: r' => if c = sep then some (d, r') else none
    | [] => none

/-- Match `[^-]+` followed by a literal hyphen; return the non-hyphen run
and the rest after the hyphen. -/
def expectNonHyphenThen (cs : List Char) : Option (List Char × List Char) :=
  let d := cs.takeWhile (fun c => c ≠ '-')
  let r := cs.dropWhile (fun c => c ≠ '-')
  if d.isEmpty then none
  else
    match r with
    | _ :: r' => some (d, r')
    | [] => none

/-- The primary pattern `exp` of `get_versions` (source lines 328-331). -/
def primary_match (cs : List Char) : Option PrimMatch := do
  let rest ← if cs.take 8 = "cpython-".toList then some (cs.drop 8) else none
  let (v1, rest) ← expectDigitsThen '.' rest
  let (v2, rest) ← expectDigitsThen '.' rest
  let (v3, rest) ← expectDigitsThen '+' rest
  let (date, rest) ← expectDigitsThen '-' rest
  let (arch, rest) ← expectNonHyphenThen rest
  let (vendor, rest) ← expectNonHyphenThen rest
  let (osPart, tail) ← expectNonHyphenThen rest
  some ⟨v1 ++ '.' :: v2 ++ '.' :: v3, date, arch, vendor, osPart, tail⟩

/-! ## Asset-name parser: tail pattern (source line 332)

`variant_exp` is `^((?P<libc>[^-]+)-)?(?P<variant>[^-]+)\.tar\.gz$`.
Because `[^-]+` cannot cross a hyphen, the optional group can only match
the segment before the first hyphen (consuming that hyphen), and the
variant group together with the literal `\.tar\.gz$` forces the rest to
be a hyphen-free segment followed by exactly `.tar.gz`.  The regex
engine's backtracking therefore reduces to: try the optional libc group
(up to the first hyphen), and on failure of the remainder fall back to
matching the variant against the whole tail. -/

/-- Match `(?P<variant>[^-]+)\.tar\.gz$` against `cs`: `cs` must be a
nonempty hyphen-free segment followed by the 7 characters `.tar.gz`. -/
def matchVariantPart (cs : List Char) : Option (List Char) :=
  if 8 ≤ cs.length ∧ cs.drop (cs.length - 7) = ".tar.gz".toList ∧
      (cs.take (cs.length - 7)).all (fun c => c ≠ '-')
  then some (cs.take (cs.length - 7))
  else none

/-- The tail pattern `variant_exp` of `get_versions` (source line 332).
Returns the optional libc group and the variant group. -/
def variant_match (cs : List Char) : Option (Option (List Char) × List Char) :=
  match cs.dropWhile (fun c => c ≠ '-') with
  | '-' :: rest =>
    let l := cs.takeWhile (fun c => c ≠ '-')
    if l.isEmpty then (matchVariantPart cs).map (fun v => (none, v))
    else
      match matchVariantPart rest with
      | some v => some (some l, v)
      | none => (matchVariantPart cs).map (fun v => (none, v))
  | _ => (matchVariantPart cs).map (fun v => (none, v))

/-! ## Translation tables and filter normalization (source lines 310-326) -/

/-- `machine_map` (source lines 310-315), as `machine_map.get(x, x)`. -/
def machine_map (x : String) : String :=
  if x = "x86_64" then "x86_64"
  else if x = "amd64" then "x86_64"
  else if x = "arm64" then "aarch64"
  else if x = "aarch64" then "aarch64"
  else x

/-- `libc_map` (source line 316), as `libc_map.get(x, x)`; `None` is the
"no constraint" value for the elements `""` and `"native"`. -/
def libc_map (x : String) : Option String :=
  if x = "glibc" then some "gnu"
  else if x = "" then none
  else if x = "native" then none
  else some x

/-- `system_map` (source lines 321-324), as `system_map.get(x, x)`. -/
def system_map (x : String) : String :=
  if x = "linux" then "linux"
  else if x = "darwin" then "darwin"
  else x

/-- Normalization of the libc filter set (source lines 317-319):
`libc = frozenset(libc_map.get(x, x) for x in libc)` followed by
`if libc == frozenset({None}): libc = None`.  The set equals `{None}`
exactly when it is nonempty and every element is `None`; the result
`none` is the "no constraint" sentinel. -/
def normLibc (libcF : List String) : Option (List (Option String)) :=
  if !(libcF.map libc_map).isEmpty && (libcF.map libc_map).all (fun x => x.isNone)
  then none
  else some (libcF.map libc_map)

/-- The libc membership test of source line 350:
`libc is not None and release_info["libc"] not in libc` rejects, so the
variant passes iff the filter is the sentinel or its parsed libc group is
a member of the normalized filter set. -/
def libcPass (libcN : Option (List (Option String))) (tok : Option String) : Bool :=
  match libcN with
  | none => true
  | some s => s.contains tok

/-! ## Per-asset processing (source lines 336-370) -/

/-- One manifest asset: `name` and `browser_download_url`. -/
structure Asset where
  name : String
  browser_download_url : String
deriving DecidableEq

/-- One entry of the list built by `get_versions`: the `release_info`
dict at the moment it is appended (source line 370). -/
structure ReleaseInfo where
  version : String
  date : String
  arch : String
  vendor : String
  os : String
  libc : String
  variant : String
  url : String
  install_name : String
deriving DecidableEq

/-- `release_info["variant"].replace("_", " ")` (source line 353). -/
def underscoreToSpace (s : String) : String :=
  (s.toList.map (fun c => if c = '_' then ' ' else c)).asString

/-- `variant.replace(' ', '_')` used in `install_name` (source line 368). -/
def spaceToUnderscore (s : String) : String :=
  (s.toList.map (fun c => if c = ' ' then '_' else c)).asString

/-- Substring containment, Python's `needle in hay` on strings. -/
def hasSubstr (needle : List Char) : List Char → Bool
  | [] => needle.isEmpty
  | c :: t => (if (c :: t).take needle.length = needle then true else hasSubstr needle t)

/-- `"stripped" in release_info["variant"]` (source lines 355-358). -/
def hasStripped (variant : String) : Bool :=
  hasSubstr "stripped".toList variant.toList

/-- `release_info["libc"] = release_info["libc"] or "native"` (source
line 360): Python `or` replaces the falsy values `None` and `""`. -/
def orNative (tok : Option String) : String :=
  match tok with
  | none => "native"
  | some s => if s = "" then "native" else s

/-- The body of the `for asset in assets` loop of `get_versions`
(source lines 336-370): parse, filter, and build the release record.
`machineN`, `systemN`, `libcN` are the already-normalized filter sets. -/
def processAsset (machineN systemN : List String)
    (libcN : Option (List (Option String))) (stripped : Bool)
    (asset : Asset) : Option ReleaseInfo :=
  match primary_match asset.name.toList with
  | none => none
  | some pm =>
    if machineN.contains pm.arch.asString then
      if systemN.contains pm.os.asString then
        match variant_match pm.tail with
        | none => none
        | some (libcTok, variantTok) =>
          if libcPass libcN (libcTok.map List.asString) then
            if stripped && !hasStripped (underscoreToSpace variantTok.asString) then none
            else if !stripped && hasStripped (underscoreToSpace variantTok.asString) then none
            else
              some
                { version := pm.version.asString
                  date := pm.date.asString
                  arch := pm.arch.asString
                  vendor := pm.vendor.asString
                  os := pm.os.asString
                  libc := orNative (libcTok.map List.asString)
                  variant := underscoreToSpace variantTok.asString
                  url := asset.browser_download_url
                  install_name :=
                    pm.version.asString ++ "-" ++ pm.arch.asString ++ "-" ++
                    pm.vendor.asString ++ "-" ++ pm.os.asString ++ "-" ++
                    orNative (libcTok.map List.asString) ++ "-" ++
                    spaceToUnderscore (underscoreToSpace variantTok.asString) }
          else none
      else none
    else none

/-! ## Sorting (source line 372) -/

/-- Python's `str.split(".")` on the character list. -/
def splitOnDot : List Char → List (List Char)
  | [] => [[]]
  | c :: t =>
    if c = '.' then [] :: splitOnDot t
    else
      match splitOnDot t with
      | [] => [[c]]
      | h :: r => (c :: h) :: r

/-- Python's `int` on a decimal digit string. -/
def chnat (cs : List Char) : Nat :=
  cs.foldl (fun a c => a * 10 + (c.toNat - '0'.toNat)) 0

/-- `list(map(int, item["version"].split(".")))`: the numeric sort key. -/
def versionKey (v : String) : List Nat :=
  (splitOnDot v.toList).map chnat

/-- Python's lexicographic `<=` on integer lists (the order induced by
`sorted` with a list key). -/
def keyLE : List Nat → List Nat → Bool
  | [], _ => true
  | _ :: _, [] => false
  | a :: as, b :: bs => if a < b then true else if b < a then false else keyLE as bs

/-- Order on release records used by the final `sorted` call. -/
def versionLE (a b : ReleaseInfo) : Prop :=
  keyLE (versionKey a.version) (versionKey b.version) = true

instance : DecidableRel versionLE := fun a b =>
  inferInstanceAs (Decidable (keyLE (versionKey a.version) (versionKey b.version) = true))

/-! ## `get_versions` (source lines 302-374) -/

/-- `get_versions(libc, system, machine, stripped)` applied to a manifest
whose asset list is `assets`: normalize the filter sets, run the per-asset
loop, and sort ascending by numeric version tuple (a stable sort, like
Python's `sorted`). -/
def get_versions (libcF system machine : List String) (stripped : Bool)
    (assets : List Asset) : List ReleaseInfo :=
  let libcN := normLibc libcF
  let systemN := system.map system_map
  let machineN := machine.map machine_map
  List.insertionSort versionLE (assets.filterMap (processAsset machineN systemN libcN stripped))

/-! ## The `install` subcommand decision logic (source lines 419-446) -/

/-- Error reported by `python_install_parser` before any filesystem
mutation. -/
inductive InstallError where
  | noMatch
  | ambiguousMatch
  | alreadyInstalled
deriving DecidableEq

/-- Observable outcome of `python_install_parser`: the exit code, the
error (if any), the install directory created (if any), and the archive
URL fetched (if any). -/
structure InstallOutcome where
  exitCode : Nat
  error : Option InstallError
  createdDir : Option String
  fetchedUrl : Option String
deriving DecidableEq

/-- The candidate list of `python_install_parser` (source lines 420-429):
`get_versions` with singleton filters, further filtered by exact version
string equality. -/
def install_candidates (arch libcArg : String) (system : List String)
    (stripped : Bool) (version : String) (assets : List Asset) : List ReleaseInfo :=
  (get_versions [libcArg] system [arch] stripped assets).filter
    (fun item => item.version == version)

/-- `python_install_parser` (source lines 419-446).  `installed` is the
set of install directory names already present under the version store.
Zero candidates and more than one candidate fail before any directory is
created or any archive fetched; the success path creates the install
directory and fetches the archive of the unique candidate. -/
def python_install (arch libcArg : String) (system : List String)
    (stripped : Bool) (version : String) (assets : List Asset)
    (installed : List String) : InstallOutcome :=
  match install_candidates arch libcArg system stripped version assets with
  | [] => { exitCode := 1, error := some InstallError.noMatch, createdDir := none, fetchedUrl := none }
  | [v] =>
    if installed.contains v.install_name then
      { exitCode := 1, error := some InstallError.alreadyInstalled, createdDir := none, fetchedUrl := none }
    else
      { exitCode := 0, error := none, createdDir := some v.install_name, fetchedUrl := some v.url }
  | _ :: _ :: _ =>
    { exitCode := 1, error := some InstallError.ambiguousMatch, createdDir := none, fetchedUrl := none }

/-! ## Helper lemmas -/

/-- The staleness test of source line 294:
`not (cache_path.exists() and cache_path.stat().st_mtime > (time.time() - cache))`. -/
def isStale (cached : Option (List Nat × Int)) (now maxAge : Int) : Bool :=
  match cached with
  | none => true
  | some (_, mtime) => !(mtime > now - maxAge : Bool)

lemma takeWhile_append_all {p : Char → Bool} {l₁ : List Char} (l₂ : List Char)
    (h : ∀ c ∈ l₁, p c = true) :
    (l₁ ++ l₂).takeWhile p = l₁ ++ l₂.takeWhile p := by
  induction l₁ with
  | nil => rfl
  | cons c t ih =>
    have hc := h c (by simp)
    simp only [List.cons_append, List.takeWhile_cons, hc, if_true, ih (fun x hx => h x (by simp [hx]))]

lemma dropWhile_append_all {p : Char → Bool} {l₁ : List Char} (l₂ : List Char)
    (h : ∀ c ∈ l₁, p c = true) :
    (l₁ ++ l₂).dropWhile p = l₂.dropWhile p := by
  induction l₁ with
  | nil => rfl
  | cons c t ih =>
    have hc := h c (by simp)
    simp only [List.cons_append, List.dropWhile_cons, hc, if_true, ih (fun x hx => h x (by simp [hx]))]

lemma dropWhile_eq_nil_all {p : Char → Bool} {l : List Char}
    (h : ∀ c ∈ l, p c = true) : l.dropWhile p = [] := by
  have h2 := dropWhile_append_all ([] : List Char) h
  simpa using h2

lemma tgz_chars : ∀ c ∈ ".tar.gz".toList, (fun c => decide (c ≠ '-')) c = true := by decide

/-- Completeness of the variant part match: a successful match of
`(?P<variant>[^-]+)\.tar\.gz$` decomposes its input. -/
lemma matchVariantPart_eq_some {cs v : List Char} (h : matchVariantPart cs = some v) :
    v ≠ [] ∧ (∀ c ∈ v, c ≠ '-') ∧ cs = v ++ ".tar.gz".toList := by
  unfold matchVariantPart at h
  split at h
  case isFalse => exact absurd h (by simp)
  case isTrue hcond =>
    obtain ⟨hn, hdrop, hall⟩ := hcond
    have hv : v = cs.take (cs.length - 7) := by
      have := Option.some.inj h; exact this.symm
    subst hv
    refine ⟨?_, ?_, ?_⟩
    · intro hnil
      have : (cs.take (cs.length - 7)).length = 0 := by rw [hnil]; rfl
      rw [List.length_take] at this
      omega
    · intro c hc
      have := (List.all_eq_true.mp hall) c hc
      simpa using this
    · conv_lhs => rw [(List.take_append_drop (cs.length - 7) cs).symm]
      rw [hdrop]

/-- Soundness of the variant part match on a decomposed input. -/
lemma matchVariantPart_append {v : List Char} (hv : v ≠ [])
    (hall : ∀ c ∈ v, c ≠ '-') :
    matchVariantPart (v ++ ".tar.gz".toList) = some v := by
  unfold matchVariantPart
  have hlen7 : (".tar.gz".toList).length = 7 := by decide
  have hlen : (v ++ ".tar.gz".toList).length = v.length + 7 := by
    rw [List.length_append, hlen7]
  have hsub : (v ++ ".tar.gz".toList).length - 7 = v.length := by omega
  have hpos : 0 < v.length := List.length_pos.mpr hv
  rw [hsub, List.take_left, List.drop_left]
  exact if_pos ⟨by omega, rfl,
    List.all_eq_true.mpr (fun c hc => by simpa using hall c hc)⟩

/-- The tail pattern on a hyphen-free `<variant>.tar.gz` tail. -/
lemma variant_match_no_libc {v : List Char} (hv : v ≠ [])
    (hall : ∀ c ∈ v, c ≠ '-') :
    variant_match (v ++ ".tar.gz".toList) = some (none, v) := by
  unfold variant_match
  have hcs : ∀ c ∈ v ++ ".tar.gz".toList, (fun c => decide (c ≠ '-')) c = true := by
    intro c hc
    rcases List.mem_append.mp hc with h | h
    · simpa using hall c h
    · exact tgz_chars c h
  rw [dropWhile_eq_nil_all hcs]
  rw [matchVariantPart_append hv hall]
  rfl

/-- The tail pattern on a `<libc>-<variant>.tar.gz` tail. -/
lemma variant_match_with_libc {l v : List Char} (hl : l ≠ [])
    (hlall : ∀ c ∈ l, c ≠ '-') (hv : v ≠ []) (hall : ∀ c ∈ v, c ≠ '-') :
    variant_match (l ++ '-' :: (v ++ ".tar.gz".toList)) = some (some l, v) := by
  unfold variant_match
  have hlb : ∀ c ∈ l, (fun c => decide (c ≠ '-')) c = true := by
    intro c hc; simpa using hlall c hc
  have hdrop : (l ++ '-' :: (v ++ ".tar.gz".toList)).dropWhile (fun c => decide (c ≠ '-')) =
      '-' :: (v ++ ".tar.gz".toList) := by
    rw [dropWhile_append_all _ hlb, List.dropWhile_cons]
    simp
  have htake : (l ++ '-' :: (v ++ ".tar.gz".toList)).takeWhile (fun c => decide (c ≠ '-')) = l := by
    rw [takeWhile_append_all _ hlb, List.takeWhile_cons]
    simp
  rw [hdrop]
  simp only [htake]
  rw [if_neg (by simpa [List.isEmpty_iff] using hl)]
  rw [matchVariantPart_append hv hall]

/-- Completeness of the tail pattern: every successful match decomposes
the tail into one of the two accepted shapes, libc before the hyphen. -/
lemma variant_match_eq_some {t : List Char} {ol : Option (List Char)} {v : List Char}
    (h : variant_match t = some (ol, v)) :
    (ol = none ∧ v ≠ [] ∧ (∀ c ∈ v, c ≠ '-') ∧ t = v ++ ".tar.gz".toList) ∨
    (∃ l, ol = some l ∧ l ≠ [] ∧ (∀ c ∈ l, c ≠ '-') ∧ v ≠ [] ∧ (∀ c ∈ v, c ≠ '-') ∧
      t = l ++ '-' :: (v ++ ".tar.gz".toList)) := by
  have fallback : ∀ (hmap : (matchVariantPart t).map
      (fun v => ((none : Option (List Char)), v)) = some (ol, v)),
      ol = none ∧ v ≠ [] ∧ (∀ c ∈ v, c ≠ '-') ∧ t = v ++ ".tar.gz".toList := by
    intro hmap
    cases hmv : matchVariantPart t with
    | none => rw [hmv] at hmap; exact absurd hmap (by simp)
    | some v' =>
      rw [hmv] at hmap
      have hpair : ((none : Option (List Char)), v') = (ol, v) := Option.some.inj hmap
      have ho : ol = none := (Prod.mk.injEq _ _ _ _ ▸ hpair).1.symm
      have hv : v' = v := (Prod.mk.injEq _ _ _ _ ▸ hpair).2
      subst hv
      obtain ⟨h1, h2, h3⟩ := matchVariantPart_eq_some hmv
      exact ⟨ho, h1, h2, h3⟩
  unfold variant_match at h
  split at h
  case h_1 rest heq =>
    by_cases hle : (t.takeWhile (fun c => decide (c ≠ '-'))).isEmpty
    · rw [if_pos hle] at h
      exact Or.inl (fallback h)
    · rw [if_neg hle] at h
      cases hmv : matchVariantPart rest with
      | none =>
        rw [hmv] at h
        exact Or.inl (fallback h)
      | some v' =>
        rw [hmv] at h
        have hpair : (some (t.takeWhile (fun c => decide (c ≠ '-'))), v') = (ol, v) :=
          Option.some.inj h
        have ho : ol = some (t.takeWhile (fun c => decide (c ≠ '-'))) :=
          ((Prod.mk.injEq _ _ _ _ ▸ hpair).1).symm
        have hv : v' = v := (Prod.mk.injEq _ _ _ _ ▸ hpair).2
        subst hv
        obtain ⟨h1, h2, h3⟩ := matchVariantPart_eq_some hmv
        refine Or.inr ⟨t.takeWhile (fun c => decide (c ≠ '-')), ho, ?_, ?_, h1, h2, ?_⟩
        · simpa [List.isEmpty_iff] using hle
        · intro c hc
          have := List.mem_takeWhile_imp hc
          simpa using this
        · conv_lhs => rw [(List.takeWhile_append_dropWhile (fun c => decide (c ≠ '-')) t).symm]
          rw [heq, h3]
  case h_2 rest heq =>
    exact Or.inl (fallback h)

lemma keyLE_cons {x y : Nat} {xs ys : List Nat} :
    keyLE (x :: xs) (y :: ys) = true ↔ x < y ∨ (x = y ∧ keyLE xs ys = true) := by
  have hdef : keyLE (x :: xs) (y :: ys) =
      if x < y then true else if y < x then false else keyLE xs ys := rfl
  rw [hdef]
  by_cases h1 : x < y
  · simp [h1]
  · rw [if_neg h1]
    by_cases h2 : y < x
    · rw [if_pos h2]
      constructor
      · intro h; exact absurd h (by simp)
      · rintro (h | ⟨h, _⟩) <;> omega
    · rw [if_neg h2]
      have hxy : x = y := by omega
      constructor
      · intro h; exact Or.inr ⟨hxy, h⟩
      · rintro (h | ⟨_, h⟩)
        · omega
        · exact h

lemma keyLE_total (a b : List Nat) : keyLE a b = true ∨ keyLE b a = true := by
  induction a generalizing b with
  | nil => exact Or.inl rfl
  | cons x xs ih =>
    cases b with
    | nil => exact Or.inr rfl
    | cons y ys =>
      rcases Nat.lt_trichotomy x y with h | h | h
      · exact Or.inl (keyLE_cons.mpr (Or.inl h))
      · rcases ih ys with h' | h'
        · exact Or.inl (keyLE_cons.mpr (Or.inr ⟨h, h'⟩))
        · exact Or.inr (keyLE_cons.mpr (Or.inr ⟨h.symm, h'⟩))
      · exact Or.inr (keyLE_cons.mpr (Or.inl h))

lemma keyLE_trans (a b c : List Nat) (h1 : keyLE a b = true) (h2 : keyLE b c = true) :
    keyLE a c = true := by
  induction a generalizing b c with
  | nil => rfl
  | cons x xs ih =>
    cases b with
    | nil => exact absurd h1 (by simp [keyLE])
    | cons y ys =>
      cases c with
      | nil => exact absurd h2 (by simp [keyLE])
      | cons z zs =>
        rcases keyLE_cons.mp h1 with hxy | ⟨hxy, hk1⟩ <;>
          rcases keyLE_cons.mp h2 with hyz | ⟨hyz, hk2⟩
        · exact keyLE_cons.mpr (Or.inl (by omega))
        · exact keyLE_cons.mpr (Or.inl (by omega))
        · exact keyLE_cons.mpr (Or.inl (by omega))
        · exact keyLE_cons.mpr (Or.inr ⟨by omega, ih ys zs hk1 hk2⟩)

instance : IsTotal ReleaseInfo versionLE :=
  ⟨fun a b => keyLE_total (versionKey a.version) (versionKey b.version)⟩

instance : IsTrans ReleaseInfo versionLE :=
  ⟨fun _ _ _ h1 h2 => keyLE_trans _ _ _ h1 h2⟩

/-- Structure of a successful run of the per-asset loop body: the record
fields come verbatim from the regex capture groups, with only the
underscore-to-space and `or "native"` post-processing applied, and all
three filter checks passed. -/
lemma processAsset_spec {machineN systemN : List String}
    {libcN : Option (List (Option String))} {stripped : Bool}
    {asset : Asset} {v : ReleaseInfo}
    (h : processAsset machineN systemN libcN stripped asset = some v) :
    ∃ pm tm, primary_match asset.name.toList = some pm ∧
      variant_match pm.tail = some tm ∧
      machineN.contains pm.arch.asString = true ∧
      systemN.contains pm.os.asString = true ∧
      libcPass libcN (tm.1.map List.asString) = true ∧
      v.version = pm.version.asString ∧
      v.arch = pm.arch.asString ∧
      v.vendor = pm.vendor.asString ∧
      v.os = pm.os.asString ∧
      v.libc = orNative (tm.1.map List.asString) ∧
      v.variant = underscoreToSpace tm.2.asString ∧
      v.url = asset.browser_download_url := by
  unfold processAsset at h
  split at h
  case h_1 => exact absurd h (by simp)
  case h_2 pm hpm =>
    split at h
    case isFalse => exact absurd h (by simp)
    case isTrue hm =>
      split at h
      case isFalse => exact absurd h (by simp)
      case isTrue hs =>
        split at h
        case h_1 => exact absurd h (by simp)
        case h_2 libcTok variantTok htm =>
          split at h
          case isFalse => exact absurd h (by simp)
          case isTrue hlp =>
            split at h
            case isTrue => exact absurd h (by simp)
            case isFalse =>
              split at h
              case isTrue => exact absurd h (by simp)
              case isFalse =>
                have hv := (Option.some.inj h).symm
                refine ⟨pm, (libcTok, variantTok), hpm, htm, by exact_mod_cast hm,
                  by exact_mod_cast hs, by exact_mod_cast hlp, ?_, ?_, ?_, ?_, ?_, ?_, ?_⟩ <;>
                  rw [hv]

/-- Membership in the result of `get_versions` comes from a successful
run of the loop body on some manifest asset. -/
lemma mem_get_versions {libcF system machine : List String} {stripped : Bool}
    {assets : List Asset} {v : ReleaseInfo}
    (h : v ∈ get_versions libcF system machine stripped assets) :
    ∃ a ∈ assets,
      processAsset (machine.map machine_map) (system.map system_map)
        (normLibc libcF) stripped a = some v := by
  unfold get_versions at h
  have hp := (List.perm_insertionSort versionLE
    (assets.filterMap (processAsset (machine.map machine_map) (system.map system_map)
      (normLibc libcF) stripped))).mem_iff.mp h
  exact List.mem_filterMap.mp hp

/-! ## Claim theorems -/

/-- **C1** (counterexample).  The claim asserts that when the network read
fails partway, the bytes previously cached for the URL are unchanged.  On
the stale cache entry `([1,2,3], mtime 0)` at time 100 with maxAge 10, a
download failing after one byte leaves `[9]` — not the previous `[1,2,3]`
— at the cache path, because `fetch` truncates and writes in place. -/
theorem c1_counterexample :
    (fetch (some ([1, 2, 3], 0)) 100 10 (Download.failPart [9])).result = Except.error () ∧
    (fetch (some ([1, 2, 3], 0)) 100 10 (Download.failPart [9])).cache = some ([9], 100) ∧
    (fetch (some ([1, 2, 3], 0)) 100 10 (Download.failPart [9])).cache ≠ some ([1, 2, 3], 0) :=
  ⟨rfl, by decide, by decide⟩

/-- **C1** (amended).  `fetch` writes the downloaded body directly to the
cache path, in place: when the cache entry is stale (or absent) and the
network read fails partway, the partial prefix — not the previous
content — is what remains visible at the cache path, and the error
propagates as `FetchFailed`. -/
theorem c1_amended (cached : Option (List Nat × Int)) (now maxAge : Int) (p : List Nat)
    (h : isStale cached now maxAge = true) :
    fetch cached now maxAge (Download.failPart p) =
      { cache := some (p, now), networkUsed := true, result := Except.error () } := by
  cases cached with
  | none => rfl
  | some bm =>
    obtain ⟨body, mtime⟩ := bm
    have hneg : ¬ (mtime > now - maxAge) := by
      simp only [isStale, Bool.not_eq_true'] at h
      exact of_decide_eq_false h
    simp only [fetch]
    rw [if_neg hneg]

/-- Witness for `c1_amended` at a concrete stale entry. -/
theorem c1_amended_witness :
    fetch (some ([1, 2, 3], 0)) 100 10 (Download.failPart [9]) =
      { cache := some ([9], 100), networkUsed := true, result := Except.error () } :=
  c1_amended (some ([1, 2, 3], 0)) 100 10 [9] (by decide)

/-- **C2**.  A cached file whose modification time is exactly `now - maxAge`
is stale: the network is used and the file is rewritten with the download
result.  A modification time strictly greater than `now - maxAge` is
fresh: the existing content is returned untouched with no network
access. -/
theorem c2_freshness_boundary (body : List Nat) (mtime now maxAge : Int) (net : Download) :
    (mtime = now - maxAge →
      (fetch (some (body, mtime)) now maxAge net).networkUsed = true ∧
      (fetch (some (body, mtime)) now maxAge net).cache =
        some ((match net with | Download.ok b => b | Download.failPart pt => pt), now)) ∧
    (now - maxAge < mtime →
      fetch (some (body, mtime)) now maxAge net =
        { cache := some (body, mtime), networkUsed := false, result := Except.ok body }) := by
  constructor
  · intro h
    subst h
    have hneg : ¬ ((now - maxAge : Int) > now - maxAge) := lt_irrefl _
    simp only [fetch]
    rw [if_neg hneg]
    cases net <;> exact ⟨rfl, rfl⟩
  · intro h
    have h' : mtime > now - maxAge := h
    simp only [fetch]
    rw [if_pos h']

/-- Witness for `c2_freshness_boundary`: at `now = 100`, `maxAge = 10`,
an entry of mtime 90 (exactly the boundary) is refetched and rewritten;
an entry of mtime 91 (one second fresher) is served from cache. -/
theorem c2_witness :
    (fetch (some ([1], 90)) 100 10 (Download.ok [7])).networkUsed = true ∧
    (fetch (some ([1], 90)) 100 10 (Download.ok [7])).cache = some ([7], 100) ∧
    (fetch (some ([1], 91)) 100 10 (Download.ok [7])).networkUsed = false := by
  refine ⟨((c2_freshness_boundary [1] 90 100 10 (Download.ok [7])).1 (by decide)).1,
    ((c2_freshness_boundary [1] 90 100 10 (Download.ok [7])).1 (by decide)).2, ?_⟩
  have h := (c2_freshness_boundary [1] 91 100 10 (Download.ok [7])).2 (by decide)
  rw [h]

/-- **C3**.  The asset name `python-3.12.1-src.tar.gz` fails the primary
pattern (no `cpython-` prefix), while
`cpython-3.12.1+20240101-x86_64-unknown-linux-gnu-pgo_stripped.tar.gz`
parses to version `3.12.1`, arch `x86_64`, os `linux`, libc `gnu`,
variant `pgo stripped` (underscore replaced by a space), whose stripped
status is true (`"stripped"` is a substring of the variant). -/
theorem c3_parser_examples :
    primary_match "python-3.12.1-src.tar.gz".toList = none ∧
    get_versions ["gnu"] ["linux"] ["x86_64"] true
      [{ name := "python-3.12.1-src.tar.gz", browser_download_url := "u1" },
       { name := "cpython-3.12.1+20240101-x86_64-unknown-linux-gnu-pgo_stripped.tar.gz",
         browser_download_url := "u2" }] =
      [{ version := "3.12.1", date := "20240101", arch := "x86_64", vendor := "unknown",
         os := "linux", libc := "gnu", variant := "pgo stripped", url := "u2",
         install_name := "3.12.1-x86_64-unknown-linux-gnu-pgo_stripped" }] ∧
    hasStripped "pgo stripped" = true :=
  ⟨by decide, by decide, by decide⟩

/-- **C5**.  A non-empty libc filter set all of whose elements normalize
to the no-constraint value (i.e. a non-empty subset of `{"", "native"}`)
reduces to the sentinel, and with the sentinel every libc token — parsed
or absent — passes the libc check. -/
theorem c5_sentinel_skips_libc_filter (libcF : List String) (hne : libcF ≠ [])
    (hall : ∀ x ∈ libcF, x = "" ∨ x = "native") :
    normLibc libcF = none ∧ ∀ tok : Option String, libcPass (normLibc libcF) tok = true := by
  have hnone : normLibc libcF = none := by
    unfold normLibc
    have h1 : ((libcF.map libc_map).all fun x => x.isNone) = true := by
      rw [List.all_eq_true]
      intro x hx
      rw [List.mem_map] at hx
      obtain ⟨y, hy, rfl⟩ := hx
      rcases hall y hy with h | h <;> · subst h; rfl
    have h2 : (libcF.map libc_map).isEmpty = false := by
      cases libcF with
      | nil => exact absurd rfl hne
      | cons a t => rfl
    rw [h2, h1]
    rfl
  exact ⟨hnone, fun tok => by rw [hnone]; rfl⟩

/-- Witness for `c5_sentinel_skips_libc_filter`: the default install
filter `{"native"}` is skipped, and a musl token passes it. -/
theorem c5_witness :
    normLibc ["native"] = none ∧ libcPass (normLibc ["native"]) (some "musl") = true :=
  ⟨(c5_sentinel_skips_libc_filter ["native"] (by decide) (by decide)).1,
   (c5_sentinel_skips_libc_filter ["native"] (by decide) (by decide)).2 (some "musl")⟩

/-- **C7**.  The sequence returned by `get_versions` is ordered ascending
by the numeric version tuple: any entry's parsed integer version key is
`≤` every later entry's. -/
theorem c7_result_sorted (libcF system machine : List String) (stripped : Bool)
    (assets : List Asset) :
    (get_versions libcF system machine stripped assets).Pairwise
      (fun a b => keyLE (versionKey a.version) (versionKey b.version) = true) := by
  unfold get_versions
  exact List.sorted_insertionSort versionLE _

/-- **C10**.  The tail pattern accepts exactly the tails
`<variant>.tar.gz` and `<libc>-<variant>.tar.gz` with `<libc>` and
`<variant>` nonempty and hyphen-free: every accepted tail has one of the
two shapes with libc the segment before the hyphen and variant the one
after (first conjunct), both shapes are accepted as described (second and
third), tails with two or more hyphens are rejected (fourth), and tails
not ending in `.tar.gz` are rejected (fifth). -/
theorem c10_tail_pattern :
    (∀ t ol v, variant_match t = some (ol, v) →
      (ol = none ∧ v ≠ [] ∧ (∀ c ∈ v, c ≠ '-') ∧ t = v ++ ".tar.gz".toList) ∨
      (∃ l, ol = some l ∧ l ≠ [] ∧ (∀ c ∈ l, c ≠ '-') ∧ v ≠ [] ∧ (∀ c ∈ v, c ≠ '-') ∧
        t = l ++ '-' :: (v ++ ".tar.gz".toList))) ∧
    (∀ v : List Char, v ≠ [] → (∀ c ∈ v, c ≠ '-') →
      variant_match (v ++ ".tar.gz".toList) = some (none, v)) ∧
    (∀ l v : List Char, l ≠ [] → (∀ c ∈ l, c ≠ '-') → v ≠ [] → (∀ c ∈ v, c ≠ '-') →
      variant_match (l ++ '-' :: (v ++ ".tar.gz".toList)) = some (some l, v)) ∧
    (∀ t : List Char, 2 ≤ t.count '-' → variant_match t = none) ∧
    (∀ t : List Char, ¬ (".tar.gz".toList <:+ t) → variant_match t = none) := by
  refine ⟨fun t ol v h => variant_match_eq_some h,
    fun v hv hall => variant_match_no_libc hv hall,
    fun l v hl hla hv hva => variant_match_with_libc hl hla hv hva, ?_, ?_⟩
  · intro t hcount
    cases hm : variant_match t with
    | none => rfl
    | some r =>
      obtain ⟨ol, v⟩ := r
      exfalso
      rcases variant_match_eq_some hm with ⟨_, hv, hall, ht⟩ | ⟨l, _, hl, hlall, hv, hall, ht⟩
      · rw [ht, List.count_append] at hcount
        have h1 : v.count '-' = 0 := List.count_eq_zero.mpr (fun hmem => (hall '-' hmem) rfl)
        have h2 : (".tar.gz".toList).count '-' = 0 := by decide
        omega
      · rw [ht, List.count_append] at hcount
        have h1 : l.count '-' = 0 := List.count_eq_zero.mpr (fun hmem => (hlall '-' hmem) rfl)
        have h3 : (('-' : Char) :: (v ++ ".tar.gz".toList)).count '-' = 1 := by
          rw [List.count_cons, List.count_append]
          have hv0 : v.count '-' = 0 := List.count_eq_zero.mpr (fun hmem => (hall '-' hmem) rfl)
          have h2 : (".tar.gz".toList).count '-' = 0 := by decide
          simp [hv0, h2]
        omega
  · intro t hsuf
    cases hm : variant_match t with
    | none => rfl
    | some r =>
      obtain ⟨ol, v⟩ := r
      exfalso
      apply hsuf
      rcases variant_match_eq_some hm with ⟨_, _, _, ht⟩ | ⟨l, _, _, _, _, _, ht⟩
      · exact ⟨v, ht.symm⟩
      · exact ⟨l ++ '-' :: v, by rw [ht]; simp⟩

/-- Witness for `c10_tail_pattern`: the one-hyphen tail
`gnu-pgo.tar.gz` parses with libc `gnu` and variant `pgo`. -/
theorem c10_witness :
    variant_match ("gnu".toList ++ '-' :: ("pgo".toList ++ ".tar.gz".toList)) =
      some (some "gnu".toList, "pgo".toList) :=
  c10_tail_pattern.2.2.1 "gnu".toList "pgo".toList (by decide) (by decide) (by decide) (by decide)

/-- **C4** (counterexample).  The claim asserts that parsed arch/libc
tokens are mapped through the translation tables.  They are not: an asset
whose libc token is `glibc` is returned with libc `"glibc"` — not the
table image `"gnu"` — when the libc filter is the skipped sentinel, and
an asset whose arch token is `amd64` is never returned at all (no
normalized filter set contains `"amd64"`), rather than yielding arch
`"x86_64"`. -/
theorem c4_counterexample :
    libc_map "glibc" = some "gnu" ∧
    (get_versions ["native"] ["linux"] ["x86_64"] true
      [{ name := "cpython-3.12.1+20240101-x86_64-unknown-linux-glibc-pgo_stripped.tar.gz",
         browser_download_url := "u" }]).map (fun v => v.libc) = ["glibc"] ∧
    ("glibc" : String) ≠ "gnu" ∧
    machine_map "amd64" = "x86_64" ∧
    get_versions ["gnu"] ["linux"] ["amd64"] true
      [{ name := "cpython-3.12.1+20240101-amd64-unknown-linux-gnu-pgo_stripped.tar.gz",
         browser_download_url := "u" }] = [] :=
  ⟨by decide, by decide, by decide, by decide, by decide⟩

/-- **C4** (amended).  For every asset accepted by the parser, the arch
and libc fields of the returned variant are the raw filename tokens,
unchanged — the translation tables are applied only to the filter sets,
never to the parsed tokens — and an absent libc token yields libc
`"native"` (via `orNative`). -/
theorem c4_amended (machineN systemN : List String)
    (libcN : Option (List (Option String))) (stripped : Bool) (asset : Asset)
    (v : ReleaseInfo) (pm : PrimMatch) (tm : Option (List Char) × List Char)
    (h : processAsset machineN systemN libcN stripped asset = some v)
    (hpm : primary_match asset.name.toList = some pm)
    (htm : variant_match pm.tail = some tm) :
    v.arch = pm.arch.asString ∧ v.libc = orNative (tm.1.map List.asString) := by
  obtain ⟨pm', tm', hpm', htm', hm, hs, hlp, hver, harch, hven, hos, hlibc, hvar, hurl⟩ :=
    processAsset_spec h
  rw [hpm] at hpm'
  obtain rfl : pm' = pm := (Option.some.inj hpm').symm
  rw [htm] at htm'
  obtain rfl : tm' = tm := (Option.some.inj htm').symm
  exact ⟨harch, hlibc⟩

/-- Witness for `c4_amended`: the glibc-token asset is returned with the
raw token `"glibc"` as its libc field. -/
theorem c4_amended_witness :
    ({ version := "3.12.1", date := "20240101", arch := "x86_64", vendor := "unknown",
       os := "linux", libc := "glibc", variant := "pgo stripped", url := "u",
       install_name := "3.12.1-x86_64-unknown-linux-glibc-pgo_stripped" } : ReleaseInfo).arch =
        ("x86_64".toList).asString ∧
    ({ version := "3.12.1", date := "20240101", arch := "x86_64", vendor := "unknown",
       os := "linux", libc := "glibc", variant := "pgo stripped", url := "u",
       install_name := "3.12.1-x86_64-unknown-linux-glibc-pgo_stripped" } : ReleaseInfo).libc =
        orNative ((some "glibc".toList).map List.asString) :=
  c4_amended ["x86_64"] ["linux"] (normLibc ["native"]) true
    { name := "cpython-3.12.1+20240101-x86_64-unknown-linux-glibc-pgo_stripped.tar.gz",
      browser_download_url := "u" }
    { version := "3.12.1", date := "20240101", arch := "x86_64", vendor := "unknown",
      os := "linux", libc := "glibc", variant := "pgo stripped", url := "u",
      install_name := "3.12.1-x86_64-unknown-linux-glibc-pgo_stripped" }
    ⟨"3.12.1".toList, "20240101".toList, "x86_64".toList, "unknown".toList, "linux".toList,
      "glibc-pgo_stripped.tar.gz".toList⟩
    (some "glibc".toList, "pgo_stripped".toList)
    (by decide) (by decide) (by decide)

/-- **C6**.  Filter sets are normalized before comparison: with machine
filter `{"arm64"}` every returned variant has arch `"aarch64"`; and in a
manifest with two variants differing only in libc (`gnu` vs `musl`),
libc filter `{"musl"}` returns exactly the musl variant. -/
theorem c6_filter_normalization :
    (∀ libcF system stripped assets v,
      v ∈ get_versions libcF system ["arm64"] stripped assets → v.arch = "aarch64") ∧
    get_versions ["musl"] ["linux"] ["x86_64"] true
      [{ name := "cpython-3.12.1+20240101-x86_64-unknown-linux-gnu-pgo_stripped.tar.gz",
         browser_download_url := "ug" },
       { name := "cpython-3.12.1+20240101-x86_64-unknown-linux-musl-pgo_stripped.tar.gz",
         browser_download_url := "um" }] =
      [{ version := "3.12.1", date := "20240101", arch := "x86_64", vendor := "unknown",
         os := "linux", libc := "musl", variant := "pgo stripped", url := "um",
         install_name := "3.12.1-x86_64-unknown-linux-musl-pgo_stripped" }] := by
  constructor
  · intro libcF system stripped assets v h
    obtain ⟨a, ha, hp⟩ := mem_get_versions h
    obtain ⟨pm, tm, hpm, htm, hm, hs, hlp, hver, harch, hven, hos, hlibc, hvar, hurl⟩ :=
      processAsset_spec hp
    have hm' : pm.arch.asString ∈ (["arm64"].map machine_map) := List.elem_iff.mp hm
    have he : (["arm64"].map machine_map) = ["aarch64"] := by decide
    rw [he] at hm'
    rw [harch, List.mem_singleton.mp hm']
  · decide

/-- Witness for the first conjunct of `c6_filter_normalization` at a
concrete aarch64 asset. -/
theorem c6_witness :
    ({ version := "3.12.1", date := "20240101", arch := "aarch64", vendor := "unknown",
       os := "linux", libc := "gnu", variant := "pgo stripped", url := "u",
       install_name := "3.12.1-aarch64-unknown-linux-gnu-pgo_stripped" } : ReleaseInfo).arch =
      "aarch64" :=
  c6_filter_normalization.1 ["gnu"] ["linux"] true
    [{ name := "cpython-3.12.1+20240101-aarch64-unknown-linux-gnu-pgo_stripped.tar.gz",
       browser_download_url := "u" }]
    { version := "3.12.1", date := "20240101", arch := "aarch64", vendor := "unknown",
      os := "linux", libc := "gnu", variant := "pgo stripped", url := "u",
      install_name := "3.12.1-aarch64-unknown-linux-gnu-pgo_stripped" }
    (by decide)

/-- **C8**.  When the exact-version candidate list has more than one
entry, the install operation reports `AmbiguousMatch` and stops — exit
code 1, no install directory created, no archive fetched; when it is
empty, it likewise reports `NoMatch` with no installation. -/
theorem c8_exact_version_ambiguity (arch libcArg : String) (system : List String)
    (stripped : Bool) (version : String) (assets : List Asset) (installed : List String) :
    (1 < (install_candidates arch libcArg system stripped version assets).length →
      python_install arch libcArg system stripped version assets installed =
        { exitCode := 1, error := some InstallError.ambiguousMatch,
          createdDir := none, fetchedUrl := none }) ∧
    ((install_candidates arch libcArg system stripped version assets).length = 0 →
      python_install arch libcArg system stripped version assets installed =
        { exitCode := 1, error := some InstallError.noMatch,
          createdDir := none, fetchedUrl := none }) := by
  unfold python_install
  cases hc : install_candidates arch libcArg system stripped version assets with
  | nil => exact ⟨fun h => absurd h (by simp), fun _ => rfl⟩
  | cons a t =>
    cases t with
    | nil => exact ⟨fun h => absurd h (by simp), fun h => absurd h (by simp)⟩
    | cons b t2 => exact ⟨fun _ => rfl, fun h => absurd h (by simp)⟩

/-- Witness for `c8_exact_version_ambiguity`: two variants of the same
version differing only in vendor yield `AmbiguousMatch`; a version absent
from the manifest yields `NoMatch`. -/
theorem c8_witness :
    python_install "x86_64" "gnu" ["linux"] true "3.12.1"
      [{ name := "cpython-3.12.1+20240101-x86_64-unknown-linux-gnu-pgo_stripped.tar.gz",
         browser_download_url := "ua" },
       { name := "cpython-3.12.1+20240101-x86_64-foo-linux-gnu-pgo_stripped.tar.gz",
         browser_download_url := "ub" }] [] =
      { exitCode := 1, error := some InstallError.ambiguousMatch,
        createdDir := none, fetchedUrl := none } ∧
    python_install "x86_64" "gnu" ["linux"] true "3.13.0"
      [{ name := "cpython-3.12.1+20240101-x86_64-unknown-linux-gnu-pgo_stripped.tar.gz",
         browser_download_url := "ua" }] [] =
      { exitCode := 1, error := some InstallError.noMatch,
        createdDir := none, fetchedUrl := none } :=
  ⟨(c8_exact_version_ambiguity "x86_64" "gnu" ["linux"] true "3.12.1"
      [{ name := "cpython-3.12.1+20240101-x86_64-unknown-linux-gnu-pgo_stripped.tar.gz",
         browser_download_url := "ua" },
       { name := "cpython-3.12.1+20240101-x86_64-foo-linux-gnu-pgo_stripped.tar.gz",
         browser_download_url := "ub" }] []).1 (by decide),
   (c8_exact_version_ambiguity "x86_64" "gnu" ["linux"] true "3.13.0"
      [{ name := "cpython-3.12.1+20240101-x86_64-unknown-linux-gnu-pgo_stripped.tar.gz",
         browser_download_url := "ua" }] []).2 (by decide)⟩

/-- **C9**.  When the libc filter contains a sentinel-normalizing element
alongside at least one other token, normalization does not reduce to the
sentinel (filtering stays active), the absent-libc token `none` is a
member of the normalized set (so such variants pass the check), and an
accepted variant whose tail has no libc group is reported with libc
`"native"`. -/
theorem c9_mixed_libc_filter (libcF : List String) (x y : String)
    (hx : x ∈ libcF) (hxn : libc_map x = none)
    (hy : y ∈ libcF) (hyn : libc_map y ≠ none) :
    normLibc libcF = some (libcF.map libc_map) ∧
    libcPass (normLibc libcF) none = true ∧
    (∀ machineN systemN stripped asset v pm tm,
      processAsset machineN systemN (normLibc libcF) stripped asset = some v →
      primary_match asset.name.toList = some pm →
      variant_match pm.tail = some tm →
      tm.1 = none →
      v.libc = "native") := by
  have hsome : normLibc libcF = some (libcF.map libc_map) := by
    unfold normLibc
    have hfalse : ((libcF.map libc_map).all fun o => o.isNone) = false := by
      refine Bool.eq_false_iff.mpr (fun hall => ?_)
      have hmem := List.all_eq_true.mp hall (libc_map y) (List.mem_map_of_mem _ hy)
      rw [Option.isNone_iff_eq_none] at hmem
      exact hyn hmem
    rw [hfalse]
    simp
  refine ⟨hsome, ?_, ?_⟩
  · rw [hsome]
    have hmem : (none : Option String) ∈ libcF.map libc_map := by
      have hmx := List.mem_map_of_mem libc_map hx
      rwa [hxn] at hmx
    exact List.elem_iff.mpr hmem
  · intro machineN systemN stripped asset v pm tm hproc hpm htm htl
    obtain ⟨pm', tm', hpm', htm', hm, hs, hlp, hver, harch, hven, hos, hlibc, hvar, hurl⟩ :=
      processAsset_spec hproc
    rw [hpm] at hpm'
    obtain rfl : pm' = pm := (Option.some.inj hpm').symm
    rw [htm] at htm'
    obtain rfl : tm' = tm := (Option.some.inj htm').symm
    rw [htl] at hlibc
    simpa using hlibc

/-- Witness for `c9_mixed_libc_filter` at the default listing filter
`{"native", "gnu", "musl"}` and an asset with no libc token. -/
theorem c9_witness :
    normLibc ["native", "gnu", "musl"] = some (["native", "gnu", "musl"].map libc_map) ∧
    libcPass (normLibc ["native", "gnu", "musl"]) none = true ∧
    ({ version := "3.12.1", date := "20240101", arch := "x86_64", vendor := "unknown",
       os := "linux", libc := "native", variant := "install only", url := "u",
       install_name := "3.12.1-x86_64-unknown-linux-native-install_only" } : ReleaseInfo).libc =
      "native" :=
  have hc9 := c9_mixed_libc_filter ["native", "gnu", "musl"] "native" "gnu"
    (by decide) (by decide) (by decide) (by decide)
  ⟨hc9.1, hc9.2.1,
    hc9.2.2 ["x86_64"] ["linux"] false
      { name := "cpython-3.12.1+20240101-x86_64-unknown-linux-install_only.tar.gz",
        browser_download_url := "u" }
      { version := "3.12.1", date := "20240101", arch := "x86_64", vendor := "unknown",
        os := "linux", libc := "native", variant := "install only", url := "u",
        install_name := "3.12.1-x86_64-unknown-linux-native-install_only" }
      ⟨"3.12.1".toList, "20240101".toList, "x86_64".toList, "unknown".toList, "linux".toList,
        "install_only.tar.gz".toList⟩
      (none, "install_only".toList)
      (by decide) (by decide) (by decide) rfl⟩

end Pysb
